import Mathlib

/-!
Shallow embedding of the dionysius backup-orchestration engine
(pattern model, config model, inheritance resolver, recursion-policy
engine and the task-collection engine), translated from the Rust
sources in `src/`.  Panics (`unwrap`/`expect`/`unreachable!`) are
modelled by `Option` (`none` = panic); fallible operations return
`Except String`.
-/

namespace Dionysius

/-- A filesystem path, as its list of components. -/
abbrev DPath := List String

-- ------------------------------------------------------------------ --
-- Rust string primitives (semantics of the `str` methods used)
-- ------------------------------------------------------------------ --

/-- Rust `str::starts_with`. -/
def rsStartsWith (s pre : String) : Bool :=
  pre.data.isPrefixOf s.data

/-- Rust `s.chars().skip(n).collect()`. -/
def rsDrop (s : String) (n : Nat) : String :=
  ⟨s.data.drop n⟩

/-- Rust `s.trim().is_empty()`: true iff every char is whitespace. -/
def rsTrimIsEmpty (s : String) : Bool :=
  s.data.all Char.isWhitespace

/-- Rust `String::replace("\\/", "")` on the char list: left-to-right
non-overlapping removal of the two-character substring backslash-slash;
after a non-matching position the scan advances one character, so a
match may start at the next character. -/
def removeEscSlash : List Char → List Char
  | [] => []
  | '\\' :: '/' :: rest => removeEscSlash rest
  | c :: rest => c :: removeEscSlash rest

-- ------------------------------------------------------------------ --
-- Pattern model (src/handlers/exclude.rs)
-- ------------------------------------------------------------------ --

/-- `BorgPattern` (exclude.rs 5-12); constructors named by their
two-letter wire form `fm: sh: re: pp: pf:`. -/
inductive BorgPattern where
  | fm (s : String)
  | sh (s : String)
  | re (s : String)
  | pp (s : String)
  | pf (s : String)
deriving DecidableEq, Repr

/-- `GitIgnorePattern` (exclude.rs 14-17): a raw gitignore line. -/
structure GitIgnorePattern where
  pattern : String
deriving DecidableEq, Repr

/-- `TryFrom<String> for BorgPattern` (exclude.rs 31-49). -/
def BorgPattern.tryFromString (s : String) : Except String BorgPattern :=
  if rsStartsWith s "fm:" then .ok (.fm (rsDrop s 3))
  else if rsStartsWith s "sh:" then .ok (.sh (rsDrop s 3))
  else if rsStartsWith s "re:" then .ok (.re (rsDrop s 3))
  else if rsStartsWith s "pp:" then .ok (.pp (rsDrop s 3))
  else if rsStartsWith s "pf:" then .ok (.pf (rsDrop s 3))
  else .error "Currently you must specify pattern type."

/-- `TryFrom<GitIgnorePattern> for BorgPattern` (exclude.rs 63-80):
reject negation; prepend `**/` when no `/` remains after deleting the
`\\/` substrings; then drop one leading `/`; emit as a shell pattern. -/
def BorgPattern.ofGitIgnore (g : GitIgnorePattern) : Except String BorgPattern :=
  let pattern := g.pattern
  if rsStartsWith pattern "!" then .error "Negation is not supported"
  else
    let pattern :=
      if ((removeEscSlash pattern.data).contains '/') then pattern
      else "**/" ++ pattern
    let pattern := if rsStartsWith pattern "/" then rsDrop pattern 1 else pattern
    .ok (.sh pattern)

/-- `TryFrom<BorgPattern> for GitIgnorePattern` (exclude.rs 82-112). -/
def GitIgnorePattern.ofBorg : BorgPattern → Except String GitIgnorePattern
  | .fm _ => .error "Cannot convert fnmatch pattern to gitignore pattern"
  | .sh p =>
    let p := if rsStartsWith p "/" then p else "/" ++ p
    .ok ⟨p⟩
  | .re _ => .error "Cannot convert regex pattern to gitignore pattern"
  | .pp p =>
    let p := if rsStartsWith p "/" then p else "/" ++ p
    let p := if p.data.getLast? = some '/' then p else p ++ "/"
    .ok ⟨p⟩
  | .pf p =>
    let p := if rsStartsWith p "/" then p else "/" ++ p
    .ok ⟨p⟩

/-- `TryFrom<String> for GitIgnorePattern` (exclude.rs 51-61). -/
def GitIgnorePattern.tryFromString (s : String) : Except String GitIgnorePattern :=
  if rsStartsWith s "fm:" ∨ rsStartsWith s "sh:" ∨ rsStartsWith s "re:" ∨
     rsStartsWith s "pp:" ∨ rsStartsWith s "pf:" then
    (BorgPattern.tryFromString s).bind GitIgnorePattern.ofBorg
  else .ok ⟨s⟩

/-- `read_gitignore` (exclude.rs 149-159) on the lines of the file:
skip `#` lines and blank lines, keep the rest verbatim. -/
def read_gitignore (lines : List String) : List GitIgnorePattern :=
  (lines.filter (fun l => ¬(rsStartsWith l "#" ∨ rsTrimIsEmpty l))).map (⟨·⟩)

-- ------------------------------------------------------------------ --
-- Config model (src/handlers/toml_config.rs, git.rs, borg.rs, trigger.rs)
-- ------------------------------------------------------------------ --

/-- `OnRecursion` (toml_config.rs 229-241). -/
inductive OnRecursion where
  | skip
  | include
  | standalone
  | double
  | inherit
deriving DecidableEq, Repr

/-- `Default for OnRecursion` (toml_config.rs 243-247). -/
def OnRecursion.defaultValue : OnRecursion := .standalone

/-- `OnUnsave` (git.rs 43-53). -/
inductive OnUnsave where
  | save
  | ignore
  | ask
  | interrupt
deriving DecidableEq, Repr

structure GitTargetConfig where
  mode : Option String
  target : Option String
deriving DecidableEq, Repr

structure GitInheritableConfig where
  trigger_by : Option (List String)
  on_unsave : Option OnUnsave
  on_recursion : Option OnRecursion
  ignore_child : Option Bool
deriving DecidableEq, Repr

structure GitConfig where
  target : Option GitTargetConfig
  assets : Option GitInheritableConfig
  heritage : Option GitInheritableConfig
deriving DecidableEq, Repr

structure BorgTargetConfig where
  mode : Option String
  target : Option String
deriving DecidableEq, Repr

structure BorgInheritableConfig where
  trigger_by : Option (List String)
  exclude_list : Option (List String)
  extra_exclude_mode : Option (List String)
  on_recursion : Option OnRecursion
  ignore_child : Option Bool
deriving DecidableEq, Repr

structure BorgConfig where
  target : Option BorgTargetConfig
  assets : Option BorgInheritableConfig
  heritage : Option BorgInheritableConfig
deriving DecidableEq, Repr

structure TriggerInheritableConfig where
  on_recursion : Option OnRecursion
deriving DecidableEq, Repr

structure TriggerConfig where
  assets : Option TriggerInheritableConfig
  heritage : Option TriggerInheritableConfig
deriving DecidableEq, Repr

/-- `PushTaskConfig` (toml_config.rs 44-50). -/
inductive PushTaskConfig where
  | trigger (c : TriggerConfig)
  | git (c : GitConfig)
  | borg (c : BorgConfig)
deriving DecidableEq, Repr

/-- `DionysiusConfig` (toml_config.rs 16-23): three optional handler
sections, in field order `trigger, git, borg`. -/
structure DionysiusConfig where
  trigger : Option PushTaskConfig
  git : Option PushTaskConfig
  borg : Option PushTaskConfig
deriving DecidableEq, Repr

/-- `DionysiusConfig::push_task_configs` (toml_config.rs 134-145):
the present sections, tagged by field name, in field order. -/
def DionysiusConfig.push_task_configs (c : DionysiusConfig) : List (String × PushTaskConfig) :=
  (match c.trigger with | some pc => [("trigger", pc)] | none => []) ++
  (match c.git with | some pc => [("git", pc)] | none => []) ++
  (match c.borg with | some pc => [("borg", pc)] | none => [])

/-- `PushTaskConfig::accepted_trigger` (toml_config.rs 53-77);
`none` models the `unwrap` panics. -/
def PushTaskConfig.accepted_trigger : PushTaskConfig → Option (List String)
  | .git c => do
    let a ← c.assets
    a.trigger_by
  | .borg c => do
    let a ← c.assets
    a.trigger_by
  | .trigger _ => some ["git", "borg"]

def PushTaskConfig.get_git : PushTaskConfig → Option GitConfig
  | .git c => some c
  | _ => none

def PushTaskConfig.get_borg : PushTaskConfig → Option BorgConfig
  | .borg c => some c
  | _ => none

-- ------------------------------------------------------------------ --
-- Defaults (git.rs 418-440, borg.rs 26-50)
-- ------------------------------------------------------------------ --

/-- The `assets` record of `Default for GitConfig` (git.rs 425-430). -/
def GitConfig.defaultAssets : GitInheritableConfig :=
  { ignore_child := none
    trigger_by := some ["git", "borg"]
    on_unsave := some .save
    on_recursion := some .inherit }

/-- The `heritage` record of `Default for GitConfig` (git.rs 431-437). -/
def GitConfig.defaultHeritage : GitInheritableConfig :=
  { ignore_child := some false
    trigger_by := none
    on_unsave := some .save
    on_recursion := some .inherit }

/-- `Default for GitConfig` (git.rs 418-440). -/
def GitConfig.defaultConfig : GitConfig :=
  { target := some { mode := some "gitconfig", target := some "" }
    assets := some GitConfig.defaultAssets
    heritage := some GitConfig.defaultHeritage }

/-- The `assets` record of `Default for BorgConfig` (borg.rs 30-38). -/
def BorgConfig.defaultAssets : BorgInheritableConfig :=
  { trigger_by := some ["borg"]
    exclude_list := none
    extra_exclude_mode := some ["git"]
    on_recursion := some .inherit
    ignore_child := none }

/-- The `heritage` record of `Default for BorgConfig` (borg.rs 39-47). -/
def BorgConfig.defaultHeritage : BorgInheritableConfig :=
  { trigger_by := none
    exclude_list := none
    extra_exclude_mode := none
    on_recursion := some .inherit
    ignore_child := some false }

/-- `Default for BorgConfig` (borg.rs 26-50). -/
def BorgConfig.defaultConfig : BorgConfig :=
  { target := none
    assets := some BorgConfig.defaultAssets
    heritage := some BorgConfig.defaultHeritage }

/-- `DionysiusConfig::git_default_config` (git.rs 822-848). -/
def DionysiusConfig.git_default_config : DionysiusConfig :=
  { trigger := none
    git := some (.git GitConfig.defaultConfig)
    borg := none }

-- ------------------------------------------------------------------ --
-- Completion (git.rs 341-406, borg.rs 113-180, toml_config.rs 164-227)
-- ------------------------------------------------------------------ --

/-- `CompletableConfig for GitConfig::is_complete` (git.rs 344-361). -/
def GitConfig.is_complete (c : GitConfig) : Bool :=
  (match c.assets with
   | some a => a.trigger_by.isSome && a.on_unsave.isSome && a.on_recursion.isSome
   | none => false) &&
  (match c.heritage with
   | some h => h.ignore_child.isSome && h.on_recursion.isSome
   | none => false)

/-- `CompletableConfig for GitConfig::completion` (git.rs 363-405).
The outer `Option` models the panic of `target.mode.as_ref().unwrap()`:
mode is unwrapped only after the target string was found present. -/
def GitConfig.completion (c : GitConfig) : Option (Except String GitConfig) :=
  let d := GitConfig.defaultConfig
  let fill : GitConfig :=
    { c with
      assets :=
        match c.assets with
        | some a => some
          { a with
            trigger_by := if a.trigger_by.isNone then GitConfig.defaultAssets.trigger_by else a.trigger_by
            on_recursion := if a.on_recursion.isNone then GitConfig.defaultAssets.on_recursion else a.on_recursion
            on_unsave := if a.on_unsave.isNone then GitConfig.defaultAssets.on_unsave else a.on_unsave }
        | none => d.assets
      heritage :=
        match c.heritage with
        | some h => some
          { h with
            ignore_child := if h.ignore_child.isNone then GitConfig.defaultHeritage.ignore_child else h.ignore_child
            on_recursion := if h.on_recursion.isNone then GitConfig.defaultHeritage.on_recursion else h.on_recursion }
        | none => d.heritage }
  match c.target with
  | some t =>
    if t.target.isNone then some (.error "Target string cannot be empty")
    else
      match t.mode with
      | none => none
      | some m =>
        if m = "gitconfig" ∨ m = "path" then some (.ok fill)
        else some (.error "Invalid target mode")
  | none => some (.ok fill)

/-- `CompletableConfig for BorgConfig::is_complete` (borg.rs 116-136). -/
def BorgConfig.is_complete (c : BorgConfig) : Bool :=
  (match c.assets with
   | some a => a.trigger_by.isSome && a.on_recursion.isSome
   | none => false) &&
  (match c.heritage with
   | some h => h.ignore_child.isSome && h.on_recursion.isSome
   | none => false)

/-- `CompletableConfig for BorgConfig::completion` (borg.rs 138-179).
Unlike git, a missing target table is rejected up front; the outer
`Option` models the `target.mode` unwrap panic. -/
def BorgConfig.completion (c : BorgConfig) : Option (Except String BorgConfig) :=
  let d := BorgConfig.defaultConfig
  let fill : BorgConfig :=
    { c with
      assets :=
        match c.assets with
        | some a => some
          { a with
            trigger_by := if a.trigger_by.isNone then BorgConfig.defaultAssets.trigger_by else a.trigger_by
            on_recursion := if a.on_recursion.isNone then BorgConfig.defaultAssets.on_recursion else a.on_recursion }
        | none => d.assets
      heritage :=
        match c.heritage with
        | some h => some
          { h with
            ignore_child := if h.ignore_child.isNone then BorgConfig.defaultHeritage.ignore_child else h.ignore_child
            on_recursion := if h.on_recursion.isNone then BorgConfig.defaultHeritage.on_recursion else h.on_recursion }
        | none => d.heritage }
  match c.target with
  | some t =>
    if t.target.isNone then some (.error "Target cannot be None")
    else
      match t.mode with
      | none => none
      | some m =>
        if m = "path" then some (.ok fill)
        else some (.error "Invalid target mode")
  | none => some (.error "Target config is required")

/-- `CompletableConfig for PushTaskConfig::is_complete` (toml_config.rs 196-209). -/
def PushTaskConfig.is_complete : PushTaskConfig → Bool
  | .trigger _ => true
  | .git c => c.is_complete
  | .borg c => c.is_complete

/-- `CompletableConfig for PushTaskConfig::completion` (toml_config.rs 210-227). -/
def PushTaskConfig.completion : PushTaskConfig → Option (Except String PushTaskConfig)
  | .trigger t => some (.ok (.trigger t))
  | .git c => (c.completion).map (·.map .git)
  | .borg c => (c.completion).map (·.map .borg)

/-- `CompletableConfig for DionysiusConfig::is_complete` (toml_config.rs 174-178). -/
def DionysiusConfig.is_complete (c : DionysiusConfig) : Bool :=
  c.push_task_configs.all (fun s => s.2.is_complete)

/-- `CompletableConfig for DionysiusConfig::completion` (toml_config.rs 179-190):
complete each present section, propagating the first error. -/
def DionysiusConfig.completion (c : DionysiusConfig) : Option (Except String DionysiusConfig) := do
  let step : Option PushTaskConfig → Option (Except String (Option PushTaskConfig)) := fun
    | none => some (.ok none)
    | some pc => (pc.completion).map (·.map some)
  let t ← step c.trigger
  match t with
  | .error e => some (.error e)
  | .ok t => do
    let g ← step c.git
    match g with
    | .error e => some (.error e)
    | .ok g => do
      let b ← step c.borg
      match b with
      | .error e => some (.error e)
      | .ok b => some (.ok { trigger := t, git := g, borg := b })

/-- `load_raw_config` minus TOML parsing (toml_config.rs 314-333), as
used through `load_config(..).unwrap()` in task.rs 183: the input is
the parsed raw config; `none` models both the completion error being
unwrapped and the completion panic. -/
def loadConfig (raw : DionysiusConfig) : Option DionysiusConfig :=
  if raw.is_complete then some raw
  else
    match raw.completion with
    | some (.ok c) => some c
    | some (.error _) => none
    | none => none

-- ------------------------------------------------------------------ --
-- Inheritance resolver (git.rs 306-325, borg.rs 85-97,
-- toml_config.rs 249-274, task.rs 42-105)
-- ------------------------------------------------------------------ --

/-- `InheritableConfig for GitInheritableConfig::inherit_from`
(git.rs 306-325): resolve `inherit` from the super heritage config, or
to the default (`standalone`) when there is none; `none` models the
`unreachable!` on a missing `on_recursion`. -/
def GitInheritableConfig.inherit_from (c : GitInheritableConfig)
    (sup : Option GitInheritableConfig) : Option GitInheritableConfig :=
  match c.on_recursion with
  | some .inherit =>
    match sup with
    | some s => some { c with on_recursion := s.on_recursion }
    | none => some { c with on_recursion := some OnRecursion.defaultValue }
  | none => none
  | some _ => some c

/-- `InheritableConfig for BorgInheritableConfig::inherit_from`
(borg.rs 85-97) for the `some` super case; the `none` case is
/ Modelled from the spec: borg.rs's merge takes a non-optional parent
while its caller in task.rs passes an optional one (the accessor
plumbing `get_borg` is absent from src/); §4.2 rule 2 of the spec says
a missing parent section resolves `inherit` to the handler default
(`standalone`), mirroring git.rs's `None` branch. -/
def BorgInheritableConfig.inherit_from (c : BorgInheritableConfig)
    (sup : Option BorgInheritableConfig) : Option BorgInheritableConfig :=
  match c.on_recursion with
  | some .inherit =>
    match sup with
    | some s => some { c with on_recursion := s.on_recursion }
    | none => some { c with on_recursion := some OnRecursion.defaultValue }
  | none => none
  | some _ => some c

/-- `HasInheritableConfig::inherit_from` for `GitConfig`
(toml_config.rs 260-273 with git.rs 270-304 accessors): both `assets`
and `heritage` merge against the super `heritage`.  The threading of an
absent super section down to the leaf is modelled from the spec §4.2
(the trait plumbing in src/ is inconsistent); the leaf behaviour is
git.rs 306-325 verbatim. -/
def GitConfig.inherit_from (c : GitConfig) (sup : Option GitConfig) : Option GitConfig := do
  let supHeritage : Option GitInheritableConfig ←
    match sup with
    | some s => (s.heritage).map some
    | none => some none
  let a ← c.assets
  let h ← c.heritage
  let a2 ← a.inherit_from supHeritage
  let h2 ← h.inherit_from supHeritage
  some { c with assets := some a2, heritage := some h2 }

/-- `HasInheritableConfig for BorgConfig::inherit_from` (borg.rs 62-73):
only `assets` is merged; `heritage` is left untouched. -/
def BorgConfig.inherit_from (c : BorgConfig) (sup : Option BorgConfig) : Option BorgConfig := do
  let supHeritage : Option BorgInheritableConfig ←
    match sup with
    | some s => (s.heritage).map some
    | none => some none
  let a ← c.assets
  let a2 ← a.inherit_from supHeritage
  some { c with assets := some a2 }

/-- One section of `inherit_config` (task.rs 42-105): the merge applied
to a present handler section.  With a super config present, a trigger
section hits the `unreachable!` arm (task.rs 74-77); without one it is
left unchanged (task.rs 99). -/
def inheritSection (sup : Option DionysiusConfig) : PushTaskConfig → Option PushTaskConfig
  | .git c =>
    match sup with
    | some s => do
      let supInner : Option GitConfig ←
        match s.git with
        | none => some none
        | some spc => (spc.get_git).map some
      let merged ← c.inherit_from supInner
      some (.git merged)
    | none => do
      let merged ← c.inherit_from none
      some (.git merged)
  | .borg c =>
    match sup with
    | some s => do
      let supInner : Option BorgConfig ←
        match s.borg with
        | none => some none
        | some spc => (spc.get_borg).map some
      let merged ← c.inherit_from supInner
      some (.borg merged)
    | none => do
      let merged ← c.inherit_from none
      some (.borg merged)
  | .trigger c =>
    match sup with
    | some _ => none
    | none => some (.trigger c)

/-- `inherit_config` (task.rs 42-105): merge every present section of
the local config with the effective super config. -/
def inherit_config (this : DionysiusConfig) (sup : Option DionysiusConfig) :
    Option DionysiusConfig := do
  let t ← match this.trigger with
    | none => some none
    | some pc => (inheritSection sup pc).map some
  let g ← match this.git with
    | none => some none
    | some pc => (inheritSection sup pc).map some
  let b ← match this.borg with
    | none => some none
    | some pc => (inheritSection sup pc).map some
  some { trigger := t, git := g, borg := b }

-- ------------------------------------------------------------------ --
-- Recursion-policy engine (task.rs 439-471)
-- ------------------------------------------------------------------ --

/-- `apply_recursion_strategy` (task.rs 439-471), with the shared
exclude list threaded by value: returns `should_create_task` and the
updated super exclude list; `none` models the `unreachable!` on
`inherit`. -/
def apply_recursion_strategy (current_dir : DPath) (onRec : OnRecursion)
    (super_exclude_list : Option (List DPath)) :
    Option (Bool × Option (List DPath)) :=
  match onRec with
  | .skip => some (false, super_exclude_list.map (· ++ [current_dir]))
  | .include => some (false, super_exclude_list)
  | .standalone => some (true, super_exclude_list.map (· ++ [current_dir]))
  | .double => some (true, super_exclude_list)
  | .inherit => none



-- ------------------------------------------------------------------ --
-- Task descriptors (git.rs 59-65, borg.rs 186-305, trigger.rs 21-24)
-- ------------------------------------------------------------------ --

/-- `CliTaskConfig` (task.rs 32-36). -/
structure CliTaskConfig where
  exclude_patterns : List String
  search_hidden : Bool
deriving DecidableEq, Repr

structure GitSaveTask where
  repo_path : DPath
  exclude_list : List DPath
  unsaved_behavior : OnUnsave
  extra_exclude_patterns : List GitIgnorePattern
deriving DecidableEq, Repr

structure BorgCreateOptions where
  acl : Bool
  numeric_owner : Bool
  compression : String
deriving DecidableEq, Repr

/-- `Default for BorgCreateOptions` (borg.rs 297-305). -/
def BorgCreateOptions.defaultOptions : BorgCreateOptions :=
  { acl := true, numeric_owner := true, compression := "zstd" }

structure BorgCreateTask where
  source : DPath
  target : String
  exclude_list : List DPath
  extra_exclude_patterns : List BorgPattern
  options : BorgCreateOptions
deriving DecidableEq, Repr

structure TriggerTask where
  current_dir : DPath
deriving DecidableEq, Repr

/-- The closed variant of the three `PushTask` implementors appended to
the shared task list. -/
inductive Task where
  | gitSave (t : GitSaveTask)
  | borgCreate (t : BorgCreateTask)
  | trigger (t : TriggerTask)
deriving DecidableEq, Repr

-- ------------------------------------------------------------------ --
-- Filesystem model for the collection engine
-- ------------------------------------------------------------------ --

/-- A directory tree node: its basename, the parsed `dionysius.toml`
when that file exists, whether `.git/` is a directory, the lines of
`.gitignore` when that file exists, and the immediate subdirectories in
traversal order (the engine's deterministic single-threaded schedule). -/
inductive Dir where
  | node (name : String) (toml : Option DionysiusConfig) (hasGitDir : Bool)
      (gitignore : Option (List String)) (subdirs : List Dir)

def Dir.name : Dir → String
  | .node n _ _ _ _ => n

def Dir.toml : Dir → Option DionysiusConfig
  | .node _ t _ _ _ => t

def Dir.hasGitDir : Dir → Bool
  | .node _ _ g _ _ => g

def Dir.gitignore : Dir → Option (List String)
  | .node _ _ _ gi _ => gi

def Dir.subdirs : Dir → List Dir
  | .node _ _ _ _ ds => ds

-- ------------------------------------------------------------------ --
-- Collection engine (task.rs 107-437)
-- ------------------------------------------------------------------ --

/-- `process_subdirs` / the trivial-subtree fan-out (task.rs 146-176 and
399-437), parametrised by the recursive call `next` on each child.
State (the shared exclude list and the appended tasks) is threaded
sequentially, the deterministic single-threaded schedule. -/
def collectChildrenAux
    (next : DPath → Dir → Option DionysiusConfig → Option (List DPath) →
      Option (List Task × Option (List DPath)))
    (base : DPath) (supCfg : Option DionysiusConfig) :
    List Dir → Option (List DPath) → Option (List Task × Option (List DPath))
  | [], e => some ([], e)
  | d :: rest, e => do
    let (ts1, e1) ← next (base ++ [d.name]) d supCfg e
    let (ts2, e2) ← collectChildrenAux next base supCfg rest e1
    some (ts1 ++ ts2, e2)

/-- The `on_recursion` extraction of the dispatch loop (task.rs 245-259):
the present section's `assets.on_recursion`, with `none` modelling the
`unwrap`/`expect` panics. -/
def sectionOnRecursion : PushTaskConfig → Option OnRecursion
  | .trigger c => do
    let a ← c.assets
    a.on_recursion
  | .git c => do
    let a ← c.assets
    a.on_recursion
  | .borg c => do
    let a ← c.assets
    a.on_recursion

/-- The per-handler dispatch loop of `collect_tasks` (task.rs 201-393),
parametrised by the recursive call `next`.  Returns the tasks appended,
the updated super exclude list and the updated own exclude list.  When
the `trigger_by` filter rejects a handler the loop `break`s
(task.rs 203-205); when `apply_recursion_strategy` says not to create a
task the whole function returns early (task.rs 295-297, 361-363,
387-389). -/
def handlerLoopAux
    (next : DPath → Dir → Option DionysiusConfig → Option (List DPath) →
      Option (List Task × Option (List DPath)))
    (tt : String) (cli : CliTaskConfig) (cur : DPath)
    (subdirs : List Dir) (gitignore : Option (List String))
    (effCfg : DionysiusConfig) :
    List (String × PushTaskConfig) → Option (List DPath) → List DPath →
    Option (List Task × Option (List DPath) × List DPath)
  | [], supExcl, curExcl => some ([], supExcl, curExcl)
  | (_, pc) :: rest, supExcl, curExcl => do
    let accepted ← pc.accepted_trigger
    if ¬ accepted.contains tt ∧ tt ≠ "trigger" then
      some ([], supExcl, curExcl)
    else do
      let onRec ← sectionOnRecursion pc
      match pc with
      | .git c => do
        let r ← apply_recursion_strategy cur onRec supExcl
        if r.1 then do
          let cres ← collectChildrenAux next cur (some effCfg) subdirs (some curExcl)
          let curExcl2 ← cres.2
          let extra := cli.exclude_patterns.filterMap
            (fun s => (GitIgnorePattern.tryFromString s).toOption)
          let a ← c.assets
          let unsaved ← a.on_unsave
          let task : Task := .gitSave
            { repo_path := cur
              exclude_list := curExcl2
              unsaved_behavior := unsaved
              extra_exclude_patterns := extra }
          let lres ← handlerLoopAux next tt cli cur subdirs gitignore effCfg rest r.2 curExcl2
          some (cres.1 ++ [task] ++ lres.1, lres.2.1, lres.2.2)
        else
          some ([], r.2, curExcl)
      | .borg c => do
        let r ← apply_recursion_strategy cur onRec supExcl
        if r.1 then do
          let cres ← collectChildrenAux next cur (some effCfg) subdirs (some curExcl)
          let curExcl2 ← cres.2
          let extraCli := cli.exclude_patterns.filterMap
            (fun s => (BorgPattern.tryFromString s).toOption)
          let a ← c.assets
          let extraCfg := match a.exclude_list with
            | some lst => lst.filterMap (fun s => (BorgPattern.tryFromString s).toOption)
            | none => []
          let extraGitignore := match a.extra_exclude_mode with
            | some modes =>
              if modes.contains "git" then
                match gitignore with
                | some lines =>
                  (read_gitignore lines).filterMap
                    (fun p => (BorgPattern.ofGitIgnore p).toOption)
                | none => []
              else []
            | none => []
          let target ← (match effCfg.borg with
            | some (.borg bc) => do
              let t ← bc.target
              t.target
            | _ => none)
          let task : Task := .borgCreate
            { source := cur
              target := target
              exclude_list := curExcl2
              extra_exclude_patterns := extraCli ++ extraCfg ++ extraGitignore
              options := BorgCreateOptions.defaultOptions }
          let lres ← handlerLoopAux next tt cli cur subdirs gitignore effCfg rest r.2 curExcl2
          some (cres.1 ++ [task] ++ lres.1, lres.2.1, lres.2.2)
        else
          some ([], r.2, curExcl)
      | .trigger _ => do
        let r ← apply_recursion_strategy cur onRec supExcl
        if r.1 then do
          let supList ← r.2
          let cres ← collectChildrenAux next cur (some effCfg) subdirs (some supList)
          let supList2 ← cres.2
          let task : Task := .trigger { current_dir := cur }
          let lres ← handlerLoopAux next tt cli cur subdirs gitignore effCfg rest (some supList2) curExcl
          some (cres.1 ++ [task] ++ lres.1, lres.2.1, lres.2.2)
        else
          some ([], r.2, curExcl)

/-- The body of `collect_tasks` after config acquisition (task.rs
190-396): inherit the config, create the own exclude list and run the
per-handler dispatch loop. -/
def collectWithConfig
    (next : DPath → Dir → Option DionysiusConfig → Option (List DPath) →
      Option (List Task × Option (List DPath)))
    (tt : String) (cli : CliTaskConfig) (cur : DPath) (d : Dir)
    (supCfg : Option DionysiusConfig) (supExcl : Option (List DPath))
    (cfg : DionysiusConfig) : Option (List Task × Option (List DPath)) := do
  let eff ← inherit_config cfg supCfg
  let lres ← handlerLoopAux next tt cli cur d.subdirs d.gitignore eff
    eff.push_task_configs supExcl []
  some (lres.1, lres.2.1)

/-- `collect_tasks` (task.rs 107-396), fuel-indexed (the fuel only needs
to exceed the tree depth; `none` at fuel 0 never arises on adequate
fuel).  Returns the tasks appended to the shared task list, in append
order, and the final contents of the super exclude list handle. -/
def collectTasks : Nat → String → CliTaskConfig → DPath → Dir →
    Option DionysiusConfig → Option (List DPath) →
    Option (List Task × Option (List DPath))
  | 0, _, _, _, _, _, _ => none
  | fuel + 1, tt, cli, cur, d, supCfg, supExcl =>
    if (match supExcl with | some l => l.contains cur | none => false) then
      some ([], supExcl)
    else if ¬ cli.search_hidden ∧ rsStartsWith d.name "." then
      some ([], supExcl)
    else
      match d.toml with
      | some raw => do
        let cfg ← loadConfig raw
        collectWithConfig (fun p c sc se => collectTasks fuel tt cli p c sc se)
          tt cli cur d supCfg supExcl cfg
      | none =>
        if d.hasGitDir then
          collectWithConfig (fun p c sc se => collectTasks fuel tt cli p c sc se)
            tt cli cur d supCfg supExcl DionysiusConfig.git_default_config
        else
          collectChildrenAux (fun p c sc se => collectTasks fuel tt cli p c sc se)
            cur supCfg d.subdirs supExcl

-- ------------------------------------------------------------------ --
-- Predicates and concrete scenarios used by the verification
-- ------------------------------------------------------------------ --

instance {α β : Type} [DecidableEq α] [DecidableEq β] : DecidableEq (Except α β) := fun a b =>
  match a, b with
  | .ok x, .ok y =>
    if h : x = y then .isTrue (by rw [h]) else .isFalse (by intro hh; cases hh; exact h rfl)
  | .error x, .error y =>
    if h : x = y then .isTrue (by rw [h]) else .isFalse (by intro hh; cases hh; exact h rfl)
  | .ok _, .error _ => .isFalse (by intro hh; cases hh)
  | .error _, .ok _ => .isFalse (by intro hh; cases hh)

/-- `r` is an ancestor of `p` or `p` itself (componentwise). -/
def below (r p : DPath) : Prop := p.take r.length = r

/-- `p` is a strict descendant of `r`. -/
def strictDesc (r p : DPath) : Prop := below r p ∧ r.length < p.length

instance (r p : DPath) : Decidable (below r p) := by unfold below; infer_instance

instance (r p : DPath) : Decidable (strictDesc r p) := by unfold strictDesc; infer_instance

/-- Every path in the task's exclude list is a strict descendant of the
task's root directory. -/
def Task.excludeOk : Task → Prop
  | .gitSave t => ∀ p ∈ t.exclude_list, strictDesc t.repo_path p
  | .borgCreate t => ∀ p ∈ t.exclude_list, strictDesc t.source p
  | .trigger _ => True

instance (t : Task) : Decidable t.excludeOk := by
  unfold Task.excludeOk
  cases t <;> infer_instance

/-- The second exclude-list handle extends the first by entries all
satisfying `P` (and absence of a handle is preserved). -/
def Appended (P : DPath → Prop) : Option (List DPath) → Option (List DPath) → Prop
  | some l, some l2 => ∃ es, l2 = l ++ es ∧ ∀ e ∈ es, P e
  | none, none => True
  | _, _ => False

/-- CLI config with no extra excludes and hidden search off. -/
def cli0 : CliTaskConfig := { exclude_patterns := [], search_hidden := false }

/-- Scenario "nested standalone": `R/outer/.git/`, `R/outer/inner/.git/`,
no toml files. -/
def c1Inner : Dir := .node "inner" none true none []

def c1Outer : Dir := .node "outer" none true none [c1Inner]

def c1Root : Dir := .node "R" none false none [c1Outer]

/-- Scenario for the `trigger_by` filter: a directory configuring git
with `trigger_by = [git]` and borg with `trigger_by = [borg]`. -/
def c2Toml : DionysiusConfig :=
  { trigger := none
    git := some (.git
      { target := none
        assets := some { trigger_by := some ["git"], on_unsave := none,
                         on_recursion := none, ignore_child := none }
        heritage := none })
    borg := some (.borg
      { target := some { mode := some "path", target := some "/t" }
        assets := some { trigger_by := some ["borg"], exclude_list := none,
                         extra_exclude_mode := none, on_recursion := none,
                         ignore_child := none }
        heritage := none }) }

def c2Dir : Dir := .node "d" (some c2Toml) false none []

def c2Root : Dir := .node "R" none false none [c2Dir]

/-- Scenario "trigger over mixed tree": a directory configured with both
a git and a borg handler section. -/
def c7Toml : DionysiusConfig :=
  { trigger := none
    git := some (.git { target := none, assets := none, heritage := none })
    borg := some (.borg
      { target := some { mode := some "path", target := some "/t" }
        assets := none
        heritage := none }) }

def c7Dir : Dir := .node "d" (some c7Toml) false none []

def c7Root : Dir := .node "R" none false none [c7Dir]

/-- Scenario "borg with gitignore": `R/proj/.git/`, a `.gitignore` with
`target/` and `*.log`, and a borg section with
`extra_exclude_mode = [git]`. -/
def c8Toml : DionysiusConfig :=
  { trigger := none
    git := none
    borg := some (.borg
      { target := some { mode := some "path", target := some "/backup/proj" }
        assets := some { trigger_by := none, exclude_list := none,
                         extra_exclude_mode := some ["git"], on_recursion := none,
                         ignore_child := none }
        heritage := none }) }

def c8Proj : Dir := .node "proj" (some c8Toml) true (some ["target/", "*.log"]) []

def c8Root : Dir := .node "R" none false none [c8Proj]

/-- Concrete configs for witness instantiations. -/
def gitAssetsW : GitInheritableConfig :=
  { trigger_by := some ["git"], on_unsave := some .save,
    on_recursion := some .inherit, ignore_child := none }

def gitHeritageW : GitInheritableConfig :=
  { trigger_by := none, on_unsave := some .save,
    on_recursion := some .standalone, ignore_child := some false }

def borgAssetsW : BorgInheritableConfig :=
  { trigger_by := some ["borg"], exclude_list := none,
    extra_exclude_mode := some ["git"], on_recursion := some .inherit,
    ignore_child := none }

def borgHeritageW : BorgInheritableConfig :=
  { trigger_by := none, exclude_list := none, extra_exclude_mode := none,
    on_recursion := some .standalone, ignore_child := some false }

def borgNoTargetW : BorgConfig := { target := none, assets := none, heritage := none }

def gitNoTargetW : GitConfig := { target := none, assets := none, heritage := none }

/-- A vacuous recursive-call stand-in for instantiating the loop lemma. -/
def nextNone : DPath → Dir → Option DionysiusConfig → Option (List DPath) →
    Option (List Task × Option (List DPath)) := fun _ _ _ _ => none


-- ------------------------------------------------------------------ --
-- Helper lemmas
-- ------------------------------------------------------------------ --

theorem opt_some_bind {α β : Type} (a : α) (f : α → Option β) :
    (do let x ← some a; f x) = f a := rfl

theorem below_refl (r : DPath) : below r r := by
  unfold below
  simp

theorem below_snoc_strict {r p : DPath} {n : String} (h : below (r ++ [n]) p) :
    strictDesc r p := by
  unfold below at h
  simp only [List.length_append, List.length_cons, List.length_nil, Nat.zero_add] at h
  have hlen : r.length + 1 ≤ p.length := by
    have hl := congrArg List.length h
    simp [List.length_take] at hl
    omega
  refine ⟨?_, by omega⟩
  unfold below
  have h2 : (p.take (r.length + 1)).take r.length = (r ++ [n]).take r.length := by rw [h]
  rw [List.take_take] at h2
  have hmin : min r.length (r.length + 1) = r.length := by omega
  rw [hmin] at h2
  rw [h2]
  exact List.take_left r [n]

theorem Appended_refl (P : DPath → Prop) (e : Option (List DPath)) : Appended P e e := by
  cases e with
  | none => trivial
  | some l => exact ⟨[], by simp, by simp⟩

theorem Appended_trans {P : DPath → Prop} : ∀ {a b c : Option (List DPath)},
    Appended P a b → Appended P b c → Appended P a c := by
  intro a b c h1 h2
  cases a with
  | none =>
    cases b with
    | none =>
      cases c with
      | none => trivial
      | some _ => exact h2.elim
    | some _ => exact h1.elim
  | some la =>
    cases b with
    | none => exact h1.elim
    | some lb =>
      cases c with
      | none => exact h2.elim
      | some lc =>
        obtain ⟨es1, he1, hp1⟩ := h1
        obtain ⟨es2, he2, hp2⟩ := h2
        refine ⟨es1 ++ es2, ?_, ?_⟩
        · rw [he2, he1, List.append_assoc]
        · intro e he
          rcases List.mem_append.mp he with hh | hh
          · exact hp1 e hh
          · exact hp2 e hh

theorem Appended_mono {P Q : DPath → Prop} (hpq : ∀ x, P x → Q x) :
    ∀ {a b : Option (List DPath)}, Appended P a b → Appended Q a b := by
  intro a b h
  cases a with
  | none =>
    cases b with
    | none => trivial
    | some _ => exact h.elim
  | some la =>
    cases b with
    | none => exact h.elim
    | some lb =>
      obtain ⟨es, he, hp⟩ := h
      exact ⟨es, he, fun e hmem => hpq e (hp e hmem)⟩

theorem opt_none_bind {α β : Type} (f : α → Option β) :
    (do let x ← (none : Option α); f x) = none := rfl

theorem apply_appends : ∀ {cur : DPath} {onRec : OnRecursion} {se : Option (List DPath)}
    {r : Bool × Option (List DPath)},
    apply_recursion_strategy cur onRec se = some r →
    Appended (below cur) se r.2 := by
  intro cur onRec se r h
  obtain ⟨b, e2⟩ := r
  cases onRec <;>
    simp only [apply_recursion_strategy, Option.some.injEq, Prod.mk.injEq] at h
  · obtain ⟨hb, he⟩ := h
    subst he
    cases se with
    | none => trivial
    | some l =>
      refine ⟨[cur], rfl, ?_⟩
      intro e he2
      simp at he2
      subst he2
      exact below_refl _
  · obtain ⟨hb, he⟩ := h
    subst he
    exact Appended_refl _ _
  · obtain ⟨hb, he⟩ := h
    subst he
    cases se with
    | none => trivial
    | some l =>
      refine ⟨[cur], rfl, ?_⟩
      intro e he2
      simp at he2
      subst he2
      exact below_refl _
  · obtain ⟨hb, he⟩ := h
    subst he
    exact Appended_refl _ _
  · exact Option.noConfusion h

theorem collectChildrenAux_invariant
    {next : DPath → Dir → Option DionysiusConfig → Option (List DPath) →
      Option (List Task × Option (List DPath))}
    (hnext : ∀ p d sc se ts e, next p d sc se = some (ts, e) →
      (∀ t ∈ ts, t.excludeOk) ∧ Appended (below p) se e) :
    ∀ (ds : List Dir) (base : DPath) (sc : Option DionysiusConfig)
      (se : Option (List DPath)) (ts : List Task) (e : Option (List DPath)),
      collectChildrenAux next base sc ds se = some (ts, e) →
      (∀ t ∈ ts, t.excludeOk) ∧ Appended (strictDesc base) se e := by
  intro ds
  induction ds with
  | nil =>
    intro base sc se ts e h
    simp only [collectChildrenAux, Option.some.injEq, Prod.mk.injEq] at h
    obtain ⟨hts, he⟩ := h
    subst hts
    subst he
    exact ⟨by simp, Appended_refl _ _⟩
  | cons d rest ih =>
    intro base sc se ts e h
    simp only [collectChildrenAux] at h
    rcases hnx : next (base ++ [d.name]) d sc se with _ | ⟨ts1, e1⟩
    · rw [hnx, opt_none_bind] at h
      cases h
    · rw [hnx, opt_some_bind] at h
      rcases hrest : collectChildrenAux next base sc rest e1 with _ | ⟨ts2, e2⟩
      · rw [hrest, opt_none_bind] at h
        cases h
      · rw [hrest, opt_some_bind] at h
        simp only [Option.some.injEq, Prod.mk.injEq] at h
        obtain ⟨hts, he⟩ := h
        subst hts
        subst he
        have r1 := hnext _ _ _ _ _ _ hnx
        have r2 := ih _ _ _ _ _ hrest
        constructor
        · intro t ht
          rcases List.mem_append.mp ht with hh | hh
          · exact r1.1 t hh
          · exact r2.1 t hh
        · exact Appended_trans
            (Appended_mono (fun x hx => below_snoc_strict hx) r1.2) r2.2

theorem git_completion_none_iff (g : GitConfig) :
    g.completion = none ↔ ∃ t, g.target = some t ∧ t.target.isSome ∧ t.mode = none := by
  unfold GitConfig.completion
  rcases ht : g.target with _ | t
  · simp [ht]
  · rcases htt : t.target with _ | ts
    · simp [ht, htt]
    · rcases hm : t.mode with _ | m
      · simp [ht, htt, hm]
      · constructor
        · intro hx
          simp only [htt, hm, Option.isNone_some] at hx
          rw [if_neg (by simp)] at hx
          split at hx <;> simp_all
        · rintro ⟨t2, ht2, hsome, hmode⟩
          injection ht2 with ht3
          subst ht3
          rw [hm] at hmode
          exact absurd hmode (by simp)

theorem borg_completion_none_iff (b : BorgConfig) :
    b.completion = none ↔ ∃ t, b.target = some t ∧ t.target.isSome ∧ t.mode = none := by
  unfold BorgConfig.completion
  rcases ht : b.target with _ | t
  · simp [ht]
  · rcases htt : t.target with _ | ts
    · simp [ht, htt]
    · rcases hm : t.mode with _ | m
      · simp [ht, htt, hm]
      · constructor
        · intro hx
          simp only [htt, hm, Option.isNone_some] at hx
          rw [if_neg (by simp)] at hx
          split at hx <;> simp_all
        · rintro ⟨t2, ht2, hsome, hmode⟩
          injection ht2 with ht3
          subst ht3
          rw [hm] at hmode
          exact absurd hmode (by simp)

-- ------------------------------------------------------------------ --
-- Claim theorems
-- ------------------------------------------------------------------ --

/-- C1: on the tree `R/outer/.git/`, `R/outer/inner/.git/` with no
`dionysius.toml` files, a collection run with `task_type_id = "git"`
produces exactly two `GitSaveTask`s, one for `R/outer/inner` and one
for `R/outer`, and `R/outer/inner` is in the `exclude_list` of the task
for `R/outer`. -/
theorem git_nested_standalone_two_tasks :
    collectTasks 10 "git" cli0 ["R"] c1Root none none =
      some ([ .gitSave { repo_path := ["R", "outer", "inner"], exclude_list := [],
                         unsaved_behavior := .save, extra_exclude_patterns := [] },
              .gitSave { repo_path := ["R", "outer"],
                         exclude_list := [["R", "outer", "inner"]],
                         unsaved_behavior := .save, extra_exclude_patterns := [] } ],
            none) := by
  decide

/-- C2 counterexample: in the directory configuring git with
`trigger_by = [git]` and borg with `trigger_by = [borg]`, a run with
`task_type_id = "borg"` produces no task at all — the rejected git
handler `break`s the dispatch loop, so no `BorgCreateTask` is created,
refuting the claim that only the one handler is skipped. -/
theorem trigger_filter_counterexample :
    collectTasks 10 "borg" cli0 ["R"] c2Root none none = some ([], none) := by
  decide

/-- C2 amended: when `task_type_id` is not `"trigger"` and not in a
handler section's `trigger_by`, the per-handler dispatch loop stops
(`break`, task.rs 204): that handler and all remaining handler sections
of the same directory are skipped, and the state is returned
unchanged. -/
theorem trigger_filter_breaks_remaining_handlers
    (next : DPath → Dir → Option DionysiusConfig → Option (List DPath) →
      Option (List Task × Option (List DPath)))
    (tt : String) (cli : CliTaskConfig) (cur : DPath) (ds : List Dir)
    (gi : Option (List String)) (eff : DionysiusConfig) (nm : String)
    (pc : PushTaskConfig) (rest : List (String × PushTaskConfig))
    (supExcl : Option (List DPath)) (curExcl : List DPath) (acc : List String)
    (hacc : pc.accepted_trigger = some acc)
    (hnot : acc.contains tt = false)
    (htt : tt ≠ "trigger") :
    handlerLoopAux next tt cli cur ds gi eff ((nm, pc) :: rest) supExcl curExcl =
      some ([], supExcl, curExcl) := by
  simp only [handlerLoopAux, hacc]
  rw [opt_some_bind]
  rw [if_pos]
  exact ⟨by simpa using hnot, htt⟩

theorem trigger_filter_breaks_remaining_handlers_witness :
    (PushTaskConfig.accepted_trigger (.git
      { target := none, assets := some gitAssetsW, heritage := none }) = some ["git"]) ∧
    (List.contains ["git"] "borg" = false) ∧ ("borg" ≠ "trigger") ∧
    handlerLoopAux nextNone "borg" cli0 ["R"] [] none c2Toml
        [("git", .git { target := none, assets := some gitAssetsW, heritage := none })]
        none [] = some ([], none, []) :=
  ⟨by decide, by decide, by decide,
    trigger_filter_breaks_remaining_handlers nextNone "borg" cli0 ["R"] [] none c2Toml
      "git" (.git { target := none, assets := some gitAssetsW, heritage := none }) []
      none [] ["git"] (by decide) (by decide) (by decide)⟩

/-- C3: `apply_recursion_strategy`, for every current directory and
present parent exclude-list handle, follows the policy table: `skip`
appends and refuses task creation, `include` neither appends nor
creates, `standalone` appends and creates, `double` creates without
appending; these equations describe its entire effect on the list. -/
theorem recursion_policy_table :
    ∀ (dir : DPath) (l : List DPath),
      apply_recursion_strategy dir .skip (some l) = some (false, some (l ++ [dir])) ∧
      apply_recursion_strategy dir .include (some l) = some (false, some l) ∧
      apply_recursion_strategy dir .standalone (some l) = some (true, some (l ++ [dir])) ∧
      apply_recursion_strategy dir .double (some l) = some (true, some l) := by
  intro dir l
  exact ⟨rfl, rfl, rfl, rfl⟩

/-- C4: resolving a child whose `assets.on_recursion` is `inherit`
against a parent heritage whose `on_recursion` is `standalone` yields
`standalone`, for both handlers; and a successful merge never modifies
any assets field other than `on_recursion`. -/
theorem inheritance_algebra :
    ∀ (gc gp : GitInheritableConfig) (bc bp : BorgInheritableConfig),
      (gc.on_recursion = some .inherit → gp.on_recursion = some .standalone →
        gc.inherit_from (some gp) = some { gc with on_recursion := some .standalone }) ∧
      (bc.on_recursion = some .inherit → bp.on_recursion = some .standalone →
        bc.inherit_from (some bp) = some { bc with on_recursion := some .standalone }) ∧
      (∀ sup r, gc.inherit_from sup = some r →
        r.trigger_by = gc.trigger_by ∧ r.on_unsave = gc.on_unsave ∧
        r.ignore_child = gc.ignore_child) ∧
      (∀ sup r, bc.inherit_from sup = some r →
        r.trigger_by = bc.trigger_by ∧ r.exclude_list = bc.exclude_list ∧
        r.extra_exclude_mode = bc.extra_exclude_mode ∧ r.ignore_child = bc.ignore_child) := by
  intro gc gp bc bp
  refine ⟨?_, ?_, ?_, ?_⟩
  · intro h1 h2
    simp [GitInheritableConfig.inherit_from, h1, h2]
  · intro h1 h2
    simp [BorgInheritableConfig.inherit_from, h1, h2]
  · intro sup r h
    unfold GitInheritableConfig.inherit_from at h
    rcases hor : gc.on_recursion with _ | v <;> rw [hor] at h
    · cases h
    · cases v <;> (try (cases sup)) <;>
        simp only [Option.some.injEq] at h <;> subst h <;> simp
  · intro sup r h
    unfold BorgInheritableConfig.inherit_from at h
    rcases hor : bc.on_recursion with _ | v <;> rw [hor] at h
    · cases h
    · cases v <;> (try (cases sup)) <;>
        simp only [Option.some.injEq] at h <;> subst h <;> simp

theorem inheritance_algebra_witness :
    gitAssetsW.on_recursion = some .inherit ∧
    gitHeritageW.on_recursion = some .standalone ∧
    gitAssetsW.inherit_from (some gitHeritageW) =
      some { gitAssetsW with on_recursion := some OnRecursion.standalone } ∧
    borgAssetsW.inherit_from (some borgHeritageW) =
      some { borgAssetsW with on_recursion := some OnRecursion.standalone } :=
  ⟨by decide, by decide,
    (inheritance_algebra gitAssetsW gitHeritageW borgAssetsW borgHeritageW).1 rfl rfl,
    (inheritance_algebra gitAssetsW gitHeritageW borgAssetsW borgHeritageW).2.1 rfl rfl⟩

/-- C6 counterexample: a `GitConfig` with the `target` table entirely
absent completes successfully (git.rs 368-375 checks the target only
when it is present), refuting the claim that completion fails for both
handlers when `target` is missing. -/
theorem git_completion_missing_target_succeeds :
    GitConfig.completion { target := none, assets := none, heritage := none } =
      some (.ok { target := none, assets := some GitConfig.defaultAssets,
                  heritage := some GitConfig.defaultHeritage }) := by
  decide

/-- C6 amended: when the `target` table is entirely absent, borg
completion fails with the domain-specific error string
`"Target config is required"`, while git completion succeeds (its
target check runs only when the table is present). -/
theorem completion_missing_target :
    ∀ (b : BorgConfig) (g : GitConfig),
      (b.target = none → b.completion = some (.error "Target config is required")) ∧
      (g.target = none → ∃ r, g.completion = some (.ok r)) := by
  intro b g
  constructor
  · intro h
    unfold BorgConfig.completion
    rw [h]
  · intro h
    unfold GitConfig.completion
    rw [h]
    exact ⟨_, rfl⟩

theorem completion_missing_target_witness :
    borgNoTargetW.target = none ∧ gitNoTargetW.target = none ∧
    borgNoTargetW.completion = some (.error "Target config is required") ∧
    (∃ r, gitNoTargetW.completion = some (.ok r)) :=
  ⟨rfl, rfl,
    (completion_missing_target borgNoTargetW gitNoTargetW).1 rfl,
    (completion_missing_target borgNoTargetW gitNoTargetW).2 rfl⟩

/-- C7 counterexample: a directory configured with both a git and a
borg handler section (and no trigger section), on a
`task_type_id = "trigger"` run, produces a `GitSaveTask` and a
`BorgCreateTask` but no `TriggerTask` — `TriggerTask`s are only created
from a configured trigger section, refuting the claimed
`trigger, git, borg` output. -/
theorem trigger_run_no_trigger_task_counterexample :
    collectTasks 10 "trigger" cli0 ["R"] c7Root none none =
      some ([ .gitSave { repo_path := ["R", "d"], exclude_list := [],
                         unsaved_behavior := .save, extra_exclude_patterns := [] },
              .borgCreate { source := ["R", "d"], target := "/t", exclude_list := [],
                            extra_exclude_patterns := [],
                            options := BorgCreateOptions.defaultOptions } ],
            none) ∧
    Task.trigger { current_dir := ["R", "d"] } ∉
      [ Task.gitSave { repo_path := ["R", "d"], exclude_list := [],
                       unsaved_behavior := .save, extra_exclude_patterns := [] },
        Task.borgCreate { source := ["R", "d"], target := "/t", exclude_list := [],
                          extra_exclude_patterns := [],
                          options := BorgCreateOptions.defaultOptions } ] := by
  constructor
  · decide
  · decide

/-- C7 amended: a directory configured with both a git and a borg
handler section, on a `task_type_id = "trigger"` run, yields a
`GitSaveTask` and a `BorgCreateTask` for it, in the fixed order
`git, borg` (the filter is bypassed); no `TriggerTask` appears because
the directory configures no trigger section. -/
theorem trigger_run_mixed_handlers :
    collectTasks 10 "trigger" cli0 ["R"] c7Root none none =
      some ([ .gitSave { repo_path := ["R", "d"], exclude_list := [],
                         unsaved_behavior := .save, extra_exclude_patterns := [] },
              .borgCreate { source := ["R", "d"], target := "/t", exclude_list := [],
                            extra_exclude_patterns := [],
                            options := BorgCreateOptions.defaultOptions } ],
            none) := by
  decide

/-- C8 counterexample: the gitignore pattern `target/` converts to
`Shell("target/")`, not `Shell("/target/")` — the conversion never adds
a leading slash (a pattern with an unescaped `/` is passed through,
matching the repo's own `test_gitignore_with_trailing_slash`). -/
theorem gitignore_conversion_counterexample :
    BorgPattern.ofGitIgnore { pattern := "target/" } = .ok (.sh "target/") ∧
    BorgPattern.sh "target/" ≠ BorgPattern.sh "/target/" := by
  constructor
  · decide
  · decide

/-- C8 amended: converting `target/` yields `Shell("target/")` and
`*.log` yields `Shell("**/*.log")`; a borg run over the project whose
`.gitignore` contains those two lines (with `extra_exclude_mode`
including `git`) produces one `BorgCreateTask` whose
`extra_exclude_patterns` contains `Shell("target/")` and
`Shell("**/*.log")`. -/
theorem borg_gitignore_patterns :
    BorgPattern.ofGitIgnore { pattern := "target/" } = .ok (.sh "target/") ∧
    BorgPattern.ofGitIgnore { pattern := "*.log" } = .ok (.sh "**/*.log") ∧
    collectTasks 10 "borg" cli0 ["R"] c8Root none none =
      some ([ .borgCreate { source := ["R", "proj"], target := "/backup/proj",
                            exclude_list := [],
                            extra_exclude_patterns := [.sh "target/", .sh "**/*.log"],
                            options := BorgCreateOptions.defaultOptions } ],
            none) ∧
    BorgPattern.sh "target/" ∈ [BorgPattern.sh "target/", BorgPattern.sh "**/*.log"] ∧
    BorgPattern.sh "**/*.log" ∈ [BorgPattern.sh "target/", BorgPattern.sh "**/*.log"] := by
  refine ⟨by decide, by decide, by decide, by decide, by decide⟩

/-- C9: the gitignore-to-borg conversion fails exactly on patterns
starting with `!` (with the negation error); on every other input it
succeeds with a `Shell` pattern, whose payload prepends `**/` when no
`/` remains in the input after deleting the `\\/` substrings, and then
drops one leading `/`. -/
theorem gitignore_to_borg_error_iff :
    ∀ s : String,
      ((BorgPattern.ofGitIgnore { pattern := s }).isOk = true ↔
        rsStartsWith s "!" = false) ∧
      (rsStartsWith s "!" = true →
        BorgPattern.ofGitIgnore { pattern := s } = .error "Negation is not supported") ∧
      (rsStartsWith s "!" = false →
        BorgPattern.ofGitIgnore { pattern := s } = .ok (.sh (
          let p := if (removeEscSlash s.data).contains '/' then s else "**/" ++ s
          if rsStartsWith p "/" then rsDrop p 1 else p))) := by
  intro s
  refine ⟨?_, ?_, ?_⟩
  · by_cases h : rsStartsWith s "!" = true <;>
      simp [BorgPattern.ofGitIgnore, h, Except.isOk, Except.toBool]
  · intro h
    simp [BorgPattern.ofGitIgnore, h]
  · intro h
    simp [BorgPattern.ofGitIgnore, h]

theorem gitignore_to_borg_error_iff_witness :
    rsStartsWith "!x" "!" = true ∧
    BorgPattern.ofGitIgnore { pattern := "!x" } = .error "Negation is not supported" ∧
    rsStartsWith "foo" "!" = false ∧
    BorgPattern.ofGitIgnore { pattern := "foo" } = .ok (.sh "**/foo") :=
  ⟨by decide,
    (gitignore_to_borg_error_iff "!x").2.1 (by decide),
    by decide,
    by
      have h := (gitignore_to_borg_error_iff "foo").2.2 (by decide)
      simpa using h⟩

/-- C10: completion panics (unwraps a `None`, modelled by `none`) if and
only if the `target` table is present with a target string but no
`mode` key — for git and borg alike; under the precondition that `mode`
is present whenever a target string is, completion is panic-free. -/
theorem completion_mode_panic_iff :
    ∀ (g : GitConfig) (b : BorgConfig),
      (g.completion = none ↔ ∃ t, g.target = some t ∧ t.target.isSome ∧ t.mode = none) ∧
      (b.completion = none ↔ ∃ t, b.target = some t ∧ t.target.isSome ∧ t.mode = none) :=
  fun g b => ⟨git_completion_none_iff g, borg_completion_none_iff b⟩


theorem handlerLoopAux_invariant
    {next : DPath → Dir → Option DionysiusConfig → Option (List DPath) →
      Option (List Task × Option (List DPath))}
    (hnext : ∀ p d sc se ts e, next p d sc se = some (ts, e) →
      (∀ t ∈ ts, t.excludeOk) ∧ Appended (below p) se e)
    (tt : String) (cli : CliTaskConfig) (cur : DPath) (subdirs : List Dir)
    (gi : Option (List String)) (eff : DionysiusConfig) :
    ∀ (hs : List (String × PushTaskConfig)) (supExcl : Option (List DPath))
      (curExcl : List DPath) (ts : List Task) (supE : Option (List DPath))
      (curE : List DPath),
      (∀ p ∈ curExcl, strictDesc cur p) →
      handlerLoopAux next tt cli cur subdirs gi eff hs supExcl curExcl =
        some (ts, supE, curE) →
      (∀ t ∈ ts, t.excludeOk) ∧ Appended (below cur) supExcl supE ∧
        (∀ p ∈ curE, strictDesc cur p) := by
  intro hs
  induction hs with
  | nil =>
    intro supExcl curExcl ts supE curE hcur h
    simp only [handlerLoopAux, Option.some.injEq, Prod.mk.injEq] at h
    obtain ⟨h1, h2, h3⟩ := h
    subst h1
    subst h2
    subst h3
    exact ⟨by simp, Appended_refl _ _, hcur⟩
  | cons hd rest ih =>
    obtain ⟨nm, pc⟩ := hd
    intro supExcl curExcl ts supE curE hcur h
    simp only [handlerLoopAux] at h
    rcases hacc : pc.accepted_trigger with _ | acc
    · rw [hacc] at h
      exact Option.noConfusion h
    · rw [hacc, opt_some_bind] at h
      by_cases hfil : ¬ acc.contains tt = true ∧ tt ≠ "trigger"
      · rw [if_pos hfil] at h
        simp only [Option.some.injEq, Prod.mk.injEq] at h
        obtain ⟨h1, h2, h3⟩ := h
        subst h1
        subst h2
        subst h3
        exact ⟨by simp, Appended_refl _ _, hcur⟩
      · rw [if_neg hfil] at h
        rcases honr : sectionOnRecursion pc with _ | onRec
        · rw [honr] at h
          exact Option.noConfusion h
        · rw [honr, opt_some_bind] at h
          cases pc with
          | git c =>
            dsimp only at h
            rcases happ : apply_recursion_strategy cur onRec supExcl with _ | r
            · rw [happ] at h
              exact Option.noConfusion h
            · rw [happ, opt_some_bind] at h
              by_cases hsh : r.1 = true
              · rw [if_pos hsh] at h
                rcases hch : collectChildrenAux next cur (some eff) subdirs (some curExcl)
                  with _ | cres
                · rw [hch] at h
                  exact Option.noConfusion h
                · rw [hch, opt_some_bind] at h
                  rcases hc2 : cres.2 with _ | curExcl2
                  · rw [hc2] at h
                    exact Option.noConfusion h
                  · rw [hc2, opt_some_bind] at h
                    rcases hass : c.assets with _ | a
                    · rw [hass] at h
                      exact Option.noConfusion h
                    · rw [hass, opt_some_bind] at h
                      rcases hun : a.on_unsave with _ | unsaved
                      · rw [hun] at h
                        exact Option.noConfusion h
                      · rw [hun, opt_some_bind] at h
                        rcases hlp : handlerLoopAux next tt cli cur subdirs gi eff rest
                            r.2 curExcl2 with _ | lres
                        · rw [hlp] at h
                          exact Option.noConfusion h
                        · rw [hlp, opt_some_bind] at h
                          simp only [Option.some.injEq, Prod.mk.injEq] at h
                          obtain ⟨h1, h2, h3⟩ := h
                          subst h1
                          subst h2
                          subst h3
                          have hchi := collectChildrenAux_invariant hnext subdirs cur
                            (some eff) (some curExcl) cres.1 cres.2 (by simpa using hch)
                          have hc2app := hchi.2
                          rw [hc2] at hc2app
                          obtain ⟨es, hes, hesok⟩ := hc2app
                          have hcurExcl2 : ∀ p ∈ curExcl2, strictDesc cur p := by
                            intro p hp
                            rw [hes] at hp
                            rcases List.mem_append.mp hp with hh | hh
                            · exact hcur p hh
                            · exact hesok p hh
                          have hlpi := ih r.2 curExcl2 lres.1 lres.2.1 lres.2.2 hcurExcl2
                            (by simpa using hlp)
                          refine ⟨?_, ?_, hlpi.2.2⟩
                          · intro t ht
                            rcases List.mem_append.mp ht with hh | hh
                            · rcases List.mem_append.mp hh with hx | hx
                              · exact hchi.1 t hx
                              · simp at hx
                                subst hx
                                exact hcurExcl2
                            · exact hlpi.1 t hh
                          · exact Appended_trans (apply_appends happ) hlpi.2.1
              · rw [if_neg hsh] at h
                simp only [Option.some.injEq, Prod.mk.injEq] at h
                obtain ⟨h1, h2, h3⟩ := h
                subst h1
                subst h2
                subst h3
                exact ⟨by simp, apply_appends happ, hcur⟩
          | borg c =>
            dsimp only at h
            rcases happ : apply_recursion_strategy cur onRec supExcl with _ | r
            · rw [happ] at h
              exact Option.noConfusion h
            · rw [happ, opt_some_bind] at h
              by_cases hsh : r.1 = true
              · rw [if_pos hsh] at h
                rcases hch : collectChildrenAux next cur (some eff) subdirs (some curExcl)
                  with _ | cres
                · rw [hch] at h
                  exact Option.noConfusion h
                · rw [hch, opt_some_bind] at h
                  rcases hc2 : cres.2 with _ | curExcl2
                  · rw [hc2] at h
                    exact Option.noConfusion h
                  · rw [hc2, opt_some_bind] at h
                    rcases hass : c.assets with _ | a
                    · rw [hass] at h
                      exact Option.noConfusion h
                    · rw [hass, opt_some_bind] at h
                      rcases htar : (match eff.borg with
                        | some (.borg bc) => do
                          let t ← bc.target
                          t.target
                        | _ => none) with _ | target
                      · rw [htar] at h
                        exact Option.noConfusion h
                      · rw [htar, opt_some_bind] at h
                        rcases hlp : handlerLoopAux next tt cli cur subdirs gi eff rest
                            r.2 curExcl2 with _ | lres
                        · rw [hlp] at h
                          exact Option.noConfusion h
                        · rw [hlp, opt_some_bind] at h
                          simp only [Option.some.injEq, Prod.mk.injEq] at h
                          obtain ⟨h1, h2, h3⟩ := h
                          subst h1
                          subst h2
                          subst h3
                          have hchi := collectChildrenAux_invariant hnext subdirs cur
                            (some eff) (some curExcl) cres.1 cres.2 (by simpa using hch)
                          have hc2app := hchi.2
                          rw [hc2] at hc2app
                          obtain ⟨es, hes, hesok⟩ := hc2app
                          have hcurExcl2 : ∀ p ∈ curExcl2, strictDesc cur p := by
                            intro p hp
                            rw [hes] at hp
                            rcases List.mem_append.mp hp with hh | hh
                            · exact hcur p hh
                            · exact hesok p hh
                          have hlpi := ih r.2 curExcl2 lres.1 lres.2.1 lres.2.2 hcurExcl2
                            (by simpa using hlp)
                          refine ⟨?_, ?_, hlpi.2.2⟩
                          · intro t ht
                            rcases List.mem_append.mp ht with hh | hh
                            · rcases List.mem_append.mp hh with hx | hx
                              · exact hchi.1 t hx
                              · simp at hx
                                subst hx
                                exact hcurExcl2
                            · exact hlpi.1 t hh
                          · exact Appended_trans (apply_appends happ) hlpi.2.1
              · rw [if_neg hsh] at h
                simp only [Option.some.injEq, Prod.mk.injEq] at h
                obtain ⟨h1, h2, h3⟩ := h
                subst h1
                subst h2
                subst h3
                exact ⟨by simp, apply_appends happ, hcur⟩
          | trigger c =>
            dsimp only at h
            rcases happ : apply_recursion_strategy cur onRec supExcl with _ | r
            · rw [happ] at h
              exact Option.noConfusion h
            · rw [happ, opt_some_bind] at h
              by_cases hsh : r.1 = true
              · rw [if_pos hsh] at h
                rcases hr2 : r.2 with _ | supList
                · rw [hr2] at h
                  exact Option.noConfusion h
                · rw [hr2, opt_some_bind] at h
                  rcases hch : collectChildrenAux next cur (some eff) subdirs (some supList)
                    with _ | cres
                  · rw [hch] at h
                    exact Option.noConfusion h
                  · rw [hch, opt_some_bind] at h
                    rcases hc2 : cres.2 with _ | supList2
                    · rw [hc2] at h
                      exact Option.noConfusion h
                    · rw [hc2, opt_some_bind] at h
                      rcases hlp : handlerLoopAux next tt cli cur subdirs gi eff rest
                          (some supList2) curExcl with _ | lres
                      · rw [hlp] at h
                        exact Option.noConfusion h
                      · rw [hlp, opt_some_bind] at h
                        simp only [Option.some.injEq, Prod.mk.injEq] at h
                        obtain ⟨h1, h2, h3⟩ := h
                        subst h1
                        subst h2
                        subst h3
                        have hchi := collectChildrenAux_invariant hnext subdirs cur
                          (some eff) (some supList) cres.1 cres.2 (by simpa using hch)
                        have hc2app := hchi.2
                        rw [hc2] at hc2app
                        have happ2 : Appended (below cur) supExcl (some supList) := by
                          have := apply_appends happ
                          rw [hr2] at this
                          exact this
                        have happ3 : Appended (below cur) (some supList) (some supList2) :=
                          Appended_mono (fun x hx => hx.1) hc2app
                        have hlpi := ih (some supList2) curExcl lres.1 lres.2.1 lres.2.2 hcur
                          (by simpa using hlp)
                        refine ⟨?_, ?_, hlpi.2.2⟩
                        · intro t ht
                          rcases List.mem_append.mp ht with hh | hh
                          · rcases List.mem_append.mp hh with hx | hx
                            · exact hchi.1 t hx
                            · simp at hx
                              subst hx
                              trivial
                          · exact hlpi.1 t hh
                        · exact Appended_trans happ2 (Appended_trans happ3 hlpi.2.1)
              · rw [if_neg hsh] at h
                simp only [Option.some.injEq, Prod.mk.injEq] at h
                obtain ⟨h1, h2, h3⟩ := h
                subst h1
                subst h2
                subst h3
                exact ⟨by simp, apply_appends happ, hcur⟩


theorem collectWithConfig_invariant
    {next : DPath → Dir → Option DionysiusConfig → Option (List DPath) →
      Option (List Task × Option (List DPath))}
    (hnext : ∀ p d sc se ts e, next p d sc se = some (ts, e) →
      (∀ t ∈ ts, t.excludeOk) ∧ Appended (below p) se e) :
    ∀ (tt : String) (cli : CliTaskConfig) (cur : DPath) (d : Dir)
      (supCfg : Option DionysiusConfig) (supExcl : Option (List DPath))
      (cfg : DionysiusConfig) (ts : List Task) (e : Option (List DPath)),
      collectWithConfig next tt cli cur d supCfg supExcl cfg = some (ts, e) →
      (∀ t ∈ ts, t.excludeOk) ∧ Appended (below cur) supExcl e := by
  intro tt cli cur d supCfg supExcl cfg ts e h
  simp only [collectWithConfig] at h
  rcases hinh : inherit_config cfg supCfg with _ | eff
  · rw [hinh] at h
    exact Option.noConfusion h
  · rw [hinh, opt_some_bind] at h
    rcases hlp : handlerLoopAux next tt cli cur d.subdirs d.gitignore eff
        eff.push_task_configs supExcl [] with _ | lres
    · rw [hlp] at h
      exact Option.noConfusion h
    · rw [hlp, opt_some_bind] at h
      simp only [Option.some.injEq, Prod.mk.injEq] at h
      obtain ⟨h1, h2⟩ := h
      subst h1
      subst h2
      have hlpi := handlerLoopAux_invariant hnext tt cli cur d.subdirs d.gitignore eff
        eff.push_task_configs supExcl [] lres.1 lres.2.1 lres.2.2 (by simp)
        (by simpa using hlp)
      exact ⟨hlpi.1, hlpi.2.1⟩

theorem collectTasks_invariant :
    ∀ (fuel : Nat) (tt : String) (cli : CliTaskConfig) (cur : DPath) (d : Dir)
      (supCfg : Option DionysiusConfig) (supExcl : Option (List DPath))
      (ts : List Task) (e : Option (List DPath)),
      collectTasks fuel tt cli cur d supCfg supExcl = some (ts, e) →
      (∀ t ∈ ts, t.excludeOk) ∧ Appended (below cur) supExcl e := by
  intro fuel
  induction fuel with
  | zero =>
    intro tt cli cur d supCfg supExcl ts e h
    exact Option.noConfusion h
  | succ fuel ih =>
    intro tt cli cur d supCfg supExcl ts e h
    have hnext : ∀ p dd sc se ts2 e2,
        (fun p c sc se => collectTasks fuel tt cli p c sc se) p dd sc se = some (ts2, e2) →
        (∀ t ∈ ts2, t.excludeOk) ∧ Appended (below p) se e2 :=
      fun p dd sc se ts2 e2 hh => ih tt cli p dd sc se ts2 e2 hh
    simp only [collectTasks] at h
    split at h
    · simp only [Option.some.injEq, Prod.mk.injEq] at h
      obtain ⟨h1, h2⟩ := h
      subst h1
      subst h2
      exact ⟨by simp, Appended_refl _ _⟩
    · split at h
      · simp only [Option.some.injEq, Prod.mk.injEq] at h
        obtain ⟨h1, h2⟩ := h
        subst h1
        subst h2
        exact ⟨by simp, Appended_refl _ _⟩
      · split at h
        · rename_i raw heq
          rcases hld : loadConfig raw with _ | cfg
          · rw [hld] at h
            exact Option.noConfusion h
          · rw [hld, opt_some_bind] at h
            exact collectWithConfig_invariant hnext tt cli cur d supCfg supExcl cfg ts e h
        · split at h
          · exact collectWithConfig_invariant hnext tt cli cur d supCfg supExcl
              DionysiusConfig.git_default_config ts e h
          · have hchi := collectChildrenAux_invariant hnext d.subdirs cur supCfg supExcl
              ts e h
            exact ⟨hchi.1, Appended_mono (fun x hx => hx.1) hchi.2⟩

/-- C5: for every run of the collection engine, every path in any
produced task's exclude list is a strict descendant of that task's root
directory (git: `repo_path`; borg: `source`): paths are appended only by
strict descendants of the directory that owns the list. -/
theorem exclude_paths_strict_descendants :
    ∀ (fuel : Nat) (tt : String) (cli : CliTaskConfig) (cur : DPath) (d : Dir)
      (supCfg : Option DionysiusConfig) (supExcl : Option (List DPath))
      (ts : List Task) (e : Option (List DPath)),
      collectTasks fuel tt cli cur d supCfg supExcl = some (ts, e) →
      ∀ t ∈ ts, t.excludeOk :=
  fun fuel tt cli cur d supCfg supExcl ts e h =>
    (collectTasks_invariant fuel tt cli cur d supCfg supExcl ts e h).1

theorem exclude_paths_strict_descendants_witness :
    Task.excludeOk (.gitSave { repo_path := ["R", "outer"],
                               exclude_list := [["R", "outer", "inner"]],
                               unsaved_behavior := .save,
                               extra_exclude_patterns := [] }) :=
  exclude_paths_strict_descendants 10 "git" cli0 ["R"] c1Root none none
    [ .gitSave { repo_path := ["R", "outer", "inner"], exclude_list := [],
                 unsaved_behavior := .save, extra_exclude_patterns := [] },
      .gitSave { repo_path := ["R", "outer"],
                 exclude_list := [["R", "outer", "inner"]],
                 unsaved_behavior := .save, extra_exclude_patterns := [] } ] none
    (by decide)
    (.gitSave { repo_path := ["R", "outer"],
                exclude_list := [["R", "outer", "inner"]],
                unsaved_behavior := .save, extra_exclude_patterns := [] })
    (by decide)

end Dionysius
